import Mathlib

/-!
Verification development for the Selective-Disclosure-KYC repository.

The repository couples a Soroban smart contract (issuer registry, attribute
ring store, AOS-style ring signatures over BLS12-381, verification counter)
with a React frontend and an Express relay server.  The contract's Rust
source is not part of the file set; its operations are modelled here from
the specification (each such definition is marked `Modelled from the spec:`).
The frontend wrapper `verifyAttribute`, the issuer approval flow
`handleApprove`, the proof flow `handleSign`, the relay's credential
endpoint, and the credential encryption utilities are embedded from their
JavaScript sources.
-/

set_option autoImplicit false

namespace SDKYC

instance exceptDecEq {ε α : Type} [DecidableEq ε] [DecidableEq α] :
    DecidableEq (Except ε α)
  | .error e, .error f =>
    decidable_of_iff (e = f) ⟨fun h => by rw [h], fun h => by injection h⟩
  | .error _, .ok _ => .isFalse (fun h => by injection h)
  | .ok _, .error _ => .isFalse (fun h => by injection h)
  | .ok a, .ok b =>
    decidable_of_iff (a = b) ⟨fun h => by rw [h], fun h => by injection h⟩

/-- Messages (challenges) are opaque byte sequences, modelled as lists of
naturals. -/
abbrev Msg := List ℕ

/-- Injective encoding of a list of naturals into a natural number, used to
model a collision-free hash input encoding. -/
def encList : List ℕ → ℕ
  | [] => 0
  | a :: t => Nat.pair a (encList t) + 1

theorem encList_injective : Function.Injective encList := by
  intro l1 l2 h
  induction l1 generalizing l2 with
  | nil =>
    cases l2 with
    | nil => rfl
    | cons b t => simp [encList] at h
  | cons a t ih =>
    cases l2 with
    | nil => simp [encList] at h
    | cons b t2 =>
      simp only [encList, Nat.add_right_cancel_iff] at h
      obtain ⟨h1, h2⟩ := Nat.pair_eq_pair.mp h
      rw [h1, ih h2]

/-- Modelled from the spec: the hash used by the ring-signature challenge
chain (spec §4.4 step 2).  The contract's concrete hash (over BLS12-381
group elements) is not in the file set; it is modelled as an ideal
(collision-free, hence injective) hash of the full ring, the message and a
group element, exactly the binding data the spec prescribes. -/
def hashH (q : ℕ) (ring : List (ZMod q)) (m : Msg) (u : ZMod q) : ℕ :=
  Nat.pair (encList (ring.map ZMod.val)) (Nat.pair (encList m) u.val)

theorem hashH_inj {q : ℕ} [NeZero q] {r1 r2 : List (ZMod q)} {m1 m2 : Msg}
    {u1 u2 : ZMod q} (h : hashH q r1 m1 u1 = hashH q r2 m2 u2) :
    r1 = r2 ∧ m1 = m2 ∧ u1 = u2 := by
  unfold hashH at h
  obtain ⟨h1, h2⟩ := Nat.pair_eq_pair.mp h
  obtain ⟨h3, h4⟩ := Nat.pair_eq_pair.mp h2
  refine ⟨?_, encList_injective h3, ZMod.val_injective q h4⟩
  exact List.map_injective_iff.mpr (ZMod.val_injective q) (encList_injective h1)

/-- Modelled from the spec: one step of the challenge chain
(`challenge[i+1]` is derived from the previous challenge, the response
scalar and the member's public key, all bound to the ring and the message,
spec §4.4 step 2). -/
def chainStep (q : ℕ) (g : ZMod q) (ring : List (ZMod q)) (m : Msg)
    (c : ℕ) (sp : ZMod q × ZMod q) : ℕ :=
  hashH q ring m (sp.1 * g + (c : ZMod q) * sp.2)

/-- Modelled from the spec: folding the challenge chain over a list of
(response, member) pairs. -/
def chain (q : ℕ) (g : ZMod q) (ring : List (ZMod q)) (m : Msg)
    (prs : List (ZMod q × ZMod q)) (c : ℕ) : ℕ :=
  prs.foldl (chainStep q g ring m) c

/-- A ring signature: the challenge-chain seed and the per-member response
scalars (spec §4.4 step 4). -/
structure RingSignature (q : ℕ) where
  c0 : ℕ
  ss : List (ZMod q)
deriving DecidableEq

/-- Modelled from the spec: the verifier recomputes the challenge chain from
the responses and accepts iff it closes back to its own seed
(spec §4.5 steps 2-3). -/
def verifySig (q : ℕ) (g : ZMod q) (m : Msg) (ring : List (ZMod q))
    (sig : RingSignature q) : Bool :=
  (sig.ss.length == ring.length) &&
    (chain q g ring m (sig.ss.zip ring) sig.c0 == sig.c0)

/-- Modelled from the spec: `sign` (spec §4.4).  `a` is the signer's fresh
commitment scalar; `rs` supplies the random response scalars of the other
members (entry `j` is ignored and replaced by the algebraically computed
closing response). -/
def sign (q : ℕ) (g : ZMod q) (m : Msg) (ring : List (ZMod q)) (j : ℕ)
    (sk a : ZMod q) (rs : List (ZMod q)) : RingSignature q :=
  let tailRing := ring.drop (j + 1)
  let headRing := ring.take j
  let sB := rs.drop (j + 1)
  let sA := rs.take j
  let cj1 := hashH q ring m (a * g)
  let c0 := chain q g ring m (sB.zip tailRing) cj1
  let cj := chain q g ring m (sA.zip headRing) c0
  ⟨c0, sA ++ (a - (cj : ZMod q) * sk) :: sB⟩

theorem chain_append (q : ℕ) (g : ZMod q) (ring : List (ZMod q)) (m : Msg)
    (xs ys : List (ZMod q × ZMod q)) (c : ℕ) :
    chain q g ring m (xs ++ ys) c = chain q g ring m ys (chain q g ring m xs c) := by
  simp [chain, List.foldl_append]

theorem chain_cons (q : ℕ) (g : ZMod q) (ring : List (ZMod q)) (m : Msg)
    (x : ZMod q × ZMod q) (xs : List (ZMod q × ZMod q)) (c : ℕ) :
    chain q g ring m (x :: xs) c = chain q g ring m xs (chainStep q g ring m c x) := rfl

/-- Closing the loop: if the distinguished member's key matches the secret,
the recomputed chain returns to the seed. -/
theorem chain_close (q : ℕ) (g : ZMod q) (m : Msg)
    (A B sA sB : List (ZMod q)) (p sk a : ZMod q) (R : List (ZMod q))
    (c1 c0 cj : ℕ)
    (hR : R = A ++ p :: B)
    (hp : p = sk * g)
    (hlen : sA.length = A.length)
    (hc1 : c1 = hashH q R m (a * g))
    (hc0 : c0 = chain q g R m (sB.zip B) c1)
    (hcj : cj = chain q g R m (sA.zip A) c0) :
    chain q g R m ((sA ++ (a - (cj : ZMod q) * sk) :: sB).zip R) c0 = c0 := by
  subst hR
  rw [List.zip_append hlen, List.zip_cons_cons, chain_append, chain_cons]
  have hstep : chainStep q g (A ++ p :: B) m (chain q g (A ++ p :: B) m (sA.zip A) c0)
      (a - (cj : ZMod q) * sk, p) = c1 := by
    rw [← hcj, chainStep, hc1]
    congr 1
    show (a - (cj : ZMod q) * sk) * g + (cj : ZMod q) * p = a * g
    rw [hp]
    ring
  rw [hstep, ← hc0]

/-- Completeness of the modelled scheme: a signature produced by `sign` with
a matching key at index `j` verifies. -/
theorem verifySig_sign (q : ℕ) (g : ZMod q) (m : Msg) (ring rs : List (ZMod q))
    (j : ℕ) (sk a : ZMod q) (hj : j < ring.length)
    (hpk : ring.get ⟨j, hj⟩ = sk * g) (hlen : rs.length = ring.length) :
    verifySig q g m ring (sign q g m ring j sk a rs) = true := by
  have hA : (ring.take j).length = j := by
    simp [List.length_take, Nat.min_eq_left hj.le]
  have hsA : (rs.take j).length = j := by
    simp [List.length_take, hlen, Nat.min_eq_left hj.le]
  have hring : ring = ring.take j ++ ring.get ⟨j, hj⟩ :: ring.drop (j + 1) := by
    have h1 := List.take_append_drop j ring
    rw [List.drop_eq_getElem_cons hj] at h1
    simp only [List.get_eq_getElem]
    exact h1.symm
  simp only [verifySig, sign, Bool.and_eq_true, beq_iff_eq]
  constructor
  · simp only [List.length_append, List.length_cons, List.length_drop, hsA]
    omega
  · exact chain_close q g m (ring.take j) (ring.drop (j + 1)) (rs.take j)
      (rs.drop (j + 1)) (ring.get ⟨j, hj⟩) sk a ring _ _ _ hring hpk
      (hsA.trans hA.symm) rfl rfl rfl

/-- The last value of a nonempty chain is a hash of the full ring and the
message. -/
theorem chain_last (q : ℕ) (g : ZMod q) (ring : List (ZMod q)) (m : Msg)
    (prs : List (ZMod q × ZMod q)) (hne : prs ≠ []) (c : ℕ) :
    ∃ u, chain q g ring m prs c = hashH q ring m u := by
  rcases List.eq_nil_or_concat prs with h | ⟨ys, last, rfl⟩
  · exact absurd h hne
  · refine ⟨last.1 * g + ((chain q g ring m ys c : ℕ) : ZMod q) * last.2, ?_⟩
    rw [List.concat_eq_append, chain_append]
    rfl

/-- Binding: a signature accepted against two (ring, message) pairs forces
those pairs to be equal, because the accepted seed is an injective hash of
the ring and the message. -/
theorem verifySig_binds (q : ℕ) [NeZero q] (g : ZMod q) (m1 m2 : Msg)
    (R1 R2 : List (ZMod q)) (sig : RingSignature q)
    (h1 : R1 ≠ []) (h2 : R2 ≠ [])
    (hacc1 : verifySig q g m1 R1 sig = true)
    (hacc2 : verifySig q g m2 R2 sig = true) :
    R1 = R2 ∧ m1 = m2 := by
  simp only [verifySig, Bool.and_eq_true, beq_iff_eq] at hacc1 hacc2
  obtain ⟨hl1, hc1⟩ := hacc1
  obtain ⟨hl2, hc2⟩ := hacc2
  have hz1 : sig.ss.zip R1 ≠ [] := by
    intro h
    have := congrArg List.length h
    simp [List.length_zip, hl1] at this
    exact h1 this
  have hz2 : sig.ss.zip R2 ≠ [] := by
    intro h
    have := congrArg List.length h
    simp [List.length_zip, hl2] at this
    exact h2 this
  obtain ⟨u1, hu1⟩ := chain_last q g R1 m1 (sig.ss.zip R1) hz1 sig.c0
  obtain ⟨u2, hu2⟩ := chain_last q g R2 m2 (sig.ss.zip R2) hz2 sig.c0
  have : hashH q R1 m1 u1 = hashH q R2 m2 u2 := by
    rw [← hu1, ← hu2, hc1, hc2]
  obtain ⟨hr, hm, -⟩ := hashH_inj this
  exact ⟨hr, hm⟩

/-- Error taxonomy of the core (spec §7). -/
inductive Err where
  | AlreadyInitialized
  | Unauthorized
  | DuplicateIssuer
  | InvalidRingSize
  | DuplicateMember
  | RingNotFound
  | KeyMismatch
  | InvalidParameter
deriving DecidableEq

/-- Modelled from the spec: the contract's persisted state (spec §6): admin
identity, issuer public keys in insertion order, attribute name to ring
association (newest binding first, lookup returns the newest: a destructive
overwrite per spec §4.3), and the verification counter.  Identities and
issuer keys are modelled as naturals. -/
structure ContractState (q : ℕ) where
  admin : Option ℕ
  issuers : List ℕ
  rings : List (String × List (ZMod q))
  counter : ℕ
deriving DecidableEq

/-- Modelled from the spec: `initialize(admin)` — one-time, fails with
`AlreadyInitialized` if called twice (spec §4.2). -/
def initContract (q : ℕ) (adminId : ℕ) (st : ContractState q) :
    Except Err (ContractState q) :=
  match st.admin with
  | some _ => .error .AlreadyInitialized
  | none => .ok { st with admin := some adminId }

/-- Modelled from the spec: `register_issuer(pub_key, caller)` (spec §4.2). -/
def registerIssuer (q : ℕ) (pub caller : ℕ) (st : ContractState q) :
    Except Err (ContractState q) :=
  if st.admin = some caller then
    if pub ∈ st.issuers then .error .DuplicateIssuer
    else .ok { st with issuers := st.issuers ++ [pub] }
  else .error .Unauthorized

/-- Modelled from the spec: `list_issuers()` — read-only, returns issuers in
registration order (spec §4.2). -/
def listIssuers (q : ℕ) (st : ContractState q) : List ℕ :=
  st.issuers

/-- Modelled from the spec: `create_ring_for_attribute` (spec §4.3).  The
spec does not fix the order of the three checks; they are checked here as
ring size, duplicate members, then authorization.  `authed` models the
execution environment's identity authentication of the caller as `issuer`
(spec §4.3: checked by identity/authorization, not merely possession of a
key string). -/
def createRingForAttribute (q : ℕ) (issuer : ℕ) (authed : Bool)
    (attr : String) (members : List (ZMod q)) (st : ContractState q) :
    Except Err (ContractState q) :=
  if members.length < 2 then .error .InvalidRingSize
  else if ¬ members.Nodup then .error .DuplicateMember
  else if authed = true ∧ issuer ∈ st.issuers then
    .ok { st with rings := (attr, members) :: st.rings }
  else .error .Unauthorized

/-- Modelled from the spec: `get_ring_for_attribute` (spec §4.3). -/
def getRingForAttribute (q : ℕ) (attr : String) (st : ContractState q) :
    Option (List (ZMod q)) :=
  List.lookup attr st.rings

/-- Modelled from the spec: the `sign` operation with its local checks:
`signer_index < ring.len()` and the `KeyMismatch` check (spec §4.4). -/
def signOp (q : ℕ) (g : ZMod q) (m : Msg) (ring : List (ZMod q)) (j : ℕ)
    (sk a : ZMod q) (rs : List (ZMod q)) : Except Err (RingSignature q) :=
  if h : j < ring.length then
    if ring.get ⟨j, h⟩ = sk * g then .ok (sign q g m ring j sk a rs)
    else .error .KeyMismatch
  else .error .InvalidParameter

/-- Modelled from the spec: `verify_attribute(message, signature, attribute)`
(spec §4.5): fails with `RingNotFound` if no ring is stored, returns `false`
for a signature that does not validate, and on acceptance increments the
VerificationCounter by exactly one and returns `true` (the spec's §9
resolution: cryptographically invalid is a normal `false`, raised errors
are reserved for missing state). -/
def verifyAttribute (q : ℕ) (g : ZMod q) (m : Msg) (sig : RingSignature q)
    (attr : String) (st : ContractState q) :
    Except Err (Bool × ContractState q) :=
  match getRingForAttribute q attr st with
  | none => .error .RingNotFound
  | some ring =>
    if verifySig q g m ring sig then
      .ok (true, { st with counter := st.counter + 1 })
    else
      .ok (false, st)

/-- Modelled from the spec: `get_login_count` reads the verification
counter. -/
def getLoginCount (q : ℕ) (st : ContractState q) : ℕ :=
  st.counter

/-- Modelled from the spec: `generate_keys(count)` / the contract's
`create_keys` (spec §4.1).  `rand` supplies the random nonzero scalars
drawn by the operation, in generation order. -/
def createKeysOp (q : ℕ) (g : ZMod q) (count : ℕ) (rand : ℕ → ZMod q) :
    Except Err (List (ZMod q) × List (ZMod q)) :=
  if count = 0 then .error .InvalidParameter
  else .ok ((List.range count).map rand,
            (List.range count).map (fun i => rand i * g))

/-- A sequence of `verify_attribute` calls run back to back, collecting the
boolean results and threading the state. -/
def runVerify (q : ℕ) (g : ZMod q) :
    List (Msg × RingSignature q × String) → ContractState q →
    Except Err (List Bool × ContractState q)
  | [], st => .ok ([], st)
  | c :: cs, st =>
    match verifyAttribute q g c.1 c.2.1 c.2.2 st with
    | .error e => .error e
    | .ok (b, st') =>
      match runVerify q g cs st' with
      | .error e => .error e
      | .ok (bs, st'') => .ok (b :: bs, st'')

/-- A sequence of `register_issuer` calls by one caller, run back to back. -/
def runRegister (q : ℕ) (caller : ℕ) :
    List ℕ → ContractState q → Except Err (ContractState q)
  | [], st => .ok st
  | p :: ps, st =>
    match registerIssuer q p caller st with
    | .error e => .error e
    | .ok st' => runRegister q caller ps st'

/-- Embedded from `frontend/src/utils/contract.js` (`verifyAttribute`,
lines 395-452): the wrapper simulates the transaction first; a missing
simulation result is thrown, a simulated contract result of `false` is
thrown as `Verification failed: ...`, and only a submitted transaction with
status `SUCCESS` yields `true`; any other status is thrown.  Inputs are the
simulated contract return value and the submitted transaction status. -/
def verifyAttributeJS (simRetval : Option Bool) (txStatus : String) :
    Except String Bool :=
  match simRetval with
  | none => .error "Verification simulation failed"
  | some false =>
    .error "Verification failed: Ring signature is invalid or attribute ring not found on-chain. The issuer may need to register the ring first."
  | some true =>
    if txStatus = "SUCCESS" then .ok true
    else .error "Transaction failed"

/-- Embedded from the second `verifyAttribute` variant in
`frontend/src/utils/contract.js` (lines 724-752): it returns `true` iff the
submitted transaction status is `SUCCESS`, reporting every fault as a plain
`false`. -/
def verifyAttributeJS2 (txStatus : String) : Bool :=
  txStatus == "SUCCESS"

/-- Embedded from `backend/src/server.js` (`GET /api/credential/:userId`,
lines 190-212): look up the stored credential for `userId`; if absent
respond 404 (modelled as `none`); if present respond with the credential and
delete it from the store (one-time retrieval).  Returns the response and the
store after the request. -/
def getCredentialEndpoint {α : Type} (userId : String)
    (store : String → Option α) : Option α × (String → Option α) :=
  match store userId with
  | none => (none, store)
  | some c => (some c, fun u => if u = userId then none else store u)

/-- State threaded through the issuer approval loop: the randomness cursor
of the key-generation oracle, the per-attribute user secret keys and the
per-attribute rings accumulated so far. -/
structure ApproveState (q : ℕ) where
  cursor : ℕ
  userKeys : String → Option (ZMod q)
  attrRings : String → Option (List (ZMod q))

/-- Embedded from the issuer approval flow (`handleApprove` in the issuer
page, `src/unnamed/part_002` lines 106-140): for one attribute, call
`createKeys(1)` for the holder's key, `createKeys(4)` for the decoys, and
register the ring `[userPublicKey, ...decoyKeys.publicKeys]`.  The contract
calls are the modelled `createKeysOp` fed from the randomness stream
`rand`. -/
def approveStep (q : ℕ) (g : ZMod q) (rand : ℕ → ZMod q)
    (s : ApproveState q) (attr : String) : ApproveState q :=
  match createKeysOp q g 1 (fun i => rand (s.cursor + i)),
        createKeysOp q g 4 (fun i => rand (s.cursor + 1 + i)) with
  | .ok (sks1, pks1), .ok (_, pks4) =>
    match sks1.head?, pks1.head? with
    | some sk, some upk =>
      { cursor := s.cursor + 5
        userKeys := fun a => if a = attr then some sk else s.userKeys a
        attrRings := fun a => if a = attr then some (upk :: pks4) else s.attrRings a }
    | _, _ => s
  | _, _ => s

/-- Embedded from `handleApprove` (`src/unnamed/part_002` lines 106-140):
the loop over the request's attributes. -/
def handleApprove (q : ℕ) (g : ZMod q) (rand : ℕ → ZMod q)
    (attrs : List String) : ApproveState q :=
  attrs.foldl (approveStep q g rand) ⟨0, fun _ => none, fun _ => none⟩

/-- Embedded from the proof flow (`handleSign` in
`frontend/src/pages/ConfirmPage.jsx` lines 95-108): the ring and the secret
key are taken from the credential for the selected attribute, and `sign` is
always called with `secretIdx = 0`. -/
def handleSign (q : ℕ) (g : ZMod q) (userKeys : String → Option (ZMod q))
    (attrRings : String → Option (List (ZMod q))) (attr : String)
    (challenge : Msg) (a : ZMod q) (rs : List (ZMod q)) :
    Option (RingSignature q) :=
  match attrRings attr, userKeys attr with
  | some ring, some sk => some (sign q g challenge ring 0 sk a rs)
  | _, _ => none

/-- Embedded from `frontend/src/utils/credentials.js` (`encryptCredential`,
`src/unnamed/part_004` lines 11-52): serialize the credential, derive a key
from the password and a fresh 16-byte salt, encrypt under a fresh 12-byte
IV, and return the base64 encoding of `salt ++ iv ++ ciphertext`.  The
serializer `toJson`, base64 encoder `b64e`, key derivation `derive` and
cipher `enc` are the Web Crypto / JSON primitives the code calls, taken as
parameters. -/
def encryptCredential {Cred B64 Key : Type} (toJson : Cred → List ℕ)
    (b64e : List ℕ → B64) (derive : String → List ℕ → Key)
    (enc : Key → List ℕ → List ℕ → List ℕ)
    (cred : Cred) (password : String) (salt iv : List ℕ) : B64 :=
  b64e (salt ++ iv ++ enc (derive password salt) iv (toJson cred))

/-- Embedded from `frontend/src/utils/credentials.js` (`decryptCredential`,
`src/unnamed/part_004` lines 60-101): base64-decode, split off the salt
(bytes 0-15) and IV (bytes 16-27), re-derive the key from the password and
the recovered salt, decrypt the remainder and parse it. -/
def decryptCredential {Cred B64 Key : Type} (fromJson : List ℕ → Option Cred)
    (b64d : B64 → List ℕ) (derive : String → List ℕ → Key)
    (dec : Key → List ℕ → List ℕ → Option (List ℕ))
    (encryptedData : B64) (password : String) : Option Cred :=
  let combined := b64d encryptedData
  let salt := combined.take 16
  let iv := (combined.drop 16).take 12
  let ct := combined.drop 28
  (dec (derive password salt) iv ct).bind fromJson

/-- C1: For every ring of size >= 2 that contains a key pair (sk, pk) at
some index and is the ring stored for an attribute, verifying a signature
produced by sign over a message m with that ring, that index and sk via
verify_attribute(m, sig, attribute) returns true (and the counter is
incremented by one). -/
theorem claim_C1 (q : ℕ) (g sk a : ZMod q) (m : Msg) (ring rs : List (ZMod q))
    (j : ℕ) (attr : String) (st : ContractState q)
    (_h2 : 2 ≤ ring.length) (hj : j < ring.length)
    (hpk : ring.get ⟨j, hj⟩ = sk * g) (hlen : rs.length = ring.length)
    (hst : getRingForAttribute q attr st = some ring) :
    signOp q g m ring j sk a rs = .ok (sign q g m ring j sk a rs) ∧
    verifyAttribute q g m (sign q g m ring j sk a rs) attr st =
      .ok (true, { st with counter := st.counter + 1 }) := by
  constructor
  · simp only [signOp, hj, dif_pos, hpk, if_pos]
  · simp only [verifyAttribute, hst,
      verifySig_sign q g m ring rs j sk a hj hpk hlen, if_pos]

theorem claim_C1_witness :
    signOp 97 3 [1, 2] [(15 : ZMod 97), 7] 0 5 11 [0, 4] =
      .ok (sign 97 3 [1, 2] [15, 7] 0 5 11 [0, 4]) ∧
    verifyAttribute 97 3 [1, 2] (sign 97 3 [1, 2] [15, 7] 0 5 11 [0, 4])
      "over_18" ⟨some 1, [42], [("over_18", [15, 7])], 0⟩ =
      .ok (true, ⟨some 1, [42], [("over_18", [15, 7])], 1⟩) :=
  claim_C1 97 3 5 11 [1, 2] [15, 7] [0, 4] 0 "over_18"
    ⟨some 1, [42], [("over_18", [15, 7])], 0⟩
    (by decide) (by decide) (by decide) (by decide) (by decide)

/-- C2 counterexample: a well-formed two-member signature that the contract
model rejects with the normal negative result `false` is surfaced by the
frontend wrapper `verifyAttribute` (contract.js lines 395-452) as a raised
error, so a caller does observe an invalid-but-well-formed signature as a
raised error, contrary to the claim. -/
theorem claim_C2_counterexample :
    verifyAttribute 97 3 [9] ⟨0, [0, 0]⟩ "over_18"
      ⟨none, [], [("over_18", [3, 6])], 0⟩ =
      .ok (false, ⟨none, [], [("over_18", [3, 6])], 0⟩) ∧
    verifyAttributeJS (some false) "SUCCESS" =
      .error "Verification failed: Ring signature is invalid or attribute ring not found on-chain. The issuer may need to register the ring first." :=
  ⟨by decide, rfl⟩

/-- C2 (amended): at the contract level `verify_attribute` distinguishes an
invalid signature from a fault — a well-formed signature that does not
validate yields the normal negative result `false` with the state
unchanged, and the only raised error is `RingNotFound`, raised exactly when
no ring is stored for the attribute.  The frontend wrapper, however,
conflates the two: the primary wrapper surfaces a simulated contract result
of `false` (an invalid signature) as a raised error and never returns a
plain `false`, and the older wrapper variant reports every transaction
fault as a plain `false`. -/
theorem claim_C2_amended (q : ℕ) (g : ZMod q) (m : Msg) (sig : RingSignature q)
    (attr : String) (st : ContractState q) :
    (getRingForAttribute q attr st = none →
      verifyAttribute q g m sig attr st = .error .RingNotFound) ∧
    (∀ ring, getRingForAttribute q attr st = some ring →
      verifySig q g m ring sig = false →
      verifyAttribute q g m sig attr st = .ok (false, st)) ∧
    (∀ e, verifyAttribute q g m sig attr st = .error e →
      e = .RingNotFound ∧ getRingForAttribute q attr st = none) ∧
    (∀ tx, verifyAttributeJS (some false) tx ≠ .ok false) ∧
    (∀ tx, tx ≠ "SUCCESS" → verifyAttributeJS2 tx = false) := by
  refine ⟨?_, ?_, ?_, ?_, ?_⟩
  · intro h
    simp only [verifyAttribute, h]
  · intro ring h hv
    simp only [verifyAttribute, h, hv, Bool.false_eq_true, if_false]
  · intro e h
    unfold verifyAttribute at h
    split at h
    · next hr =>
      refine ⟨?_, hr⟩
      injection h with h1
      exact h1.symm
    · next ring hr =>
      split at h <;> exact absurd h (by simp)
  · intro tx h
    simp [verifyAttributeJS] at h
  · intro tx h
    simp [verifyAttributeJS2, h]

theorem claim_C2_amended_witness :
    verifyAttribute 97 3 [9] (⟨0, [0, 0]⟩ : RingSignature 97) "none_such"
      ⟨none, [], [("over_18", [3, 6])], 0⟩ = .error .RingNotFound ∧
    verifyAttribute 97 3 [9] ⟨0, [0, 0]⟩ "over_18"
      ⟨none, [], [("over_18", [3, 6])], 0⟩ =
      .ok (false, ⟨none, [], [("over_18", [3, 6])], 0⟩) ∧
    verifyAttributeJS2 "FAILED" = false :=
  ⟨(claim_C2_amended 97 3 [9] ⟨0, [0, 0]⟩ "none_such"
      ⟨none, [], [("over_18", [3, 6])], 0⟩).1 (by decide),
   (claim_C2_amended 97 3 [9] ⟨0, [0, 0]⟩ "over_18"
      ⟨none, [], [("over_18", [3, 6])], 0⟩).2.1 [3, 6] (by decide) (by decide),
   (claim_C2_amended 97 3 [9] ⟨0, [0, 0]⟩ "over_18"
      ⟨none, [], [("over_18", [3, 6])], 0⟩).2.2.2.2 "FAILED" (by decide)⟩

/-- C9: Credential retrieval from the relay is one-shot: the first
GET /api/credential/:userId for a stored credential returns it and deletes
it from the store, and a second request for the same userId returns the
404 result instead of the credential. -/
theorem claim_C9 {α : Type} (userId : String) (store : String → Option α)
    (c : α) (h : store userId = some c) :
    (getCredentialEndpoint userId store).1 = some c ∧
    (getCredentialEndpoint userId store).2 userId = none ∧
    (getCredentialEndpoint userId ((getCredentialEndpoint userId store).2)).1 =
      none := by
  simp [getCredentialEndpoint, h]

theorem claim_C9_witness :
    (getCredentialEndpoint "alice"
      (fun u => if u = "alice" then some 7 else none)).1 = some 7 ∧
    (getCredentialEndpoint "alice"
      (fun u => if u = "alice" then some 7 else none)).2 "alice" = none ∧
    (getCredentialEndpoint "alice" ((getCredentialEndpoint "alice"
      (fun u => if u = "alice" then some 7 else none)).2)).1 = none :=
  claim_C9 "alice" (fun u => if u = "alice" then some 7 else none) 7 (by decide)

/-- C10: Credential encryption round-trips: decrypting an encryption of a
credential with the same password yields the original credential, given the
round-trip properties of the serializer, the base64 codec and the cipher
the code delegates to, and the 16-byte salt / 12-byte IV the code draws. -/
theorem claim_C10 {Cred B64 Key : Type} (toJson : Cred → List ℕ)
    (fromJson : List ℕ → Option Cred) (b64e : List ℕ → B64)
    (b64d : B64 → List ℕ) (derive : String → List ℕ → Key)
    (enc : Key → List ℕ → List ℕ → List ℕ)
    (dec : Key → List ℕ → List ℕ → Option (List ℕ))
    (cred : Cred) (password : String) (salt iv : List ℕ)
    (hsalt : salt.length = 16) (hiv : iv.length = 12)
    (hb64 : ∀ l, b64d (b64e l) = l)
    (hjson : ∀ c, fromJson (toJson c) = some c)
    (hcipher : ∀ k v d, dec k v (enc k v d) = some d) :
    decryptCredential fromJson b64d derive dec
      (encryptCredential toJson b64e derive enc cred password salt iv)
      password = some cred := by
  unfold decryptCredential encryptCredential
  rw [hb64, List.append_assoc]
  have htake : (salt ++ (iv ++ enc (derive password salt) iv (toJson cred))).take 16 = salt := by
    rw [← hsalt]
    exact List.take_left salt _
  have hdrop : (salt ++ (iv ++ enc (derive password salt) iv (toJson cred))).drop 16 =
      iv ++ enc (derive password salt) iv (toJson cred) := by
    rw [← hsalt]
    exact List.drop_left salt _
  have hivtake : ((salt ++ (iv ++ enc (derive password salt) iv (toJson cred))).drop 16).take 12 = iv := by
    rw [hdrop, ← hiv]
    exact List.take_left iv _
  have hct : (salt ++ (iv ++ enc (derive password salt) iv (toJson cred))).drop 28 =
      enc (derive password salt) iv (toJson cred) := by
    rw [show (28 : ℕ) = 16 + 12 from rfl, ← List.drop_drop, hdrop, ← hiv]
    exact List.drop_left iv _
  simp only [htake, hivtake, hct, hcipher]
  simp [hjson]

theorem claim_C10_witness :
    decryptCredential (fun l => l.head?) (fun l => l) (fun _ s => s)
      (fun _ _ d => some d)
      (encryptCredential (fun (n : ℕ) => [n]) (fun l => l) (fun _ s => s)
        (fun _ _ d => d) 5 "pw" (List.replicate 16 0) (List.replicate 12 1))
      "pw" = some 5 :=
  claim_C10 (fun n => [n]) (fun l => l.head?) (fun l => l) (fun l => l)
    (fun _ s => s) (fun _ _ d => d) (fun _ _ d => some d) 5 "pw"
    (List.replicate 16 0) (List.replicate 12 1)
    (by decide) (by decide) (fun _ => rfl) (fun _ => rfl) (fun _ _ _ => rfl)

theorem verifyAttribute_ok_cases (q : ℕ) (g : ZMod q) (m : Msg)
    (sig : RingSignature q) (attr : String) (st : ContractState q)
    (b : Bool) (st' : ContractState q)
    (h : verifyAttribute q g m sig attr st = .ok (b, st')) :
    (b = true ∧ st' = { st with counter := st.counter + 1 }) ∨
    (b = false ∧ st' = st) := by
  unfold verifyAttribute at h
  split at h
  · exact absurd h (by simp)
  · next ring hr =>
    split at h
    · simp only [Except.ok.injEq, Prod.mk.injEq] at h
      exact Or.inl ⟨h.1.symm, h.2.symm⟩
    · simp only [Except.ok.injEq, Prod.mk.injEq] at h
      exact Or.inr ⟨h.1.symm, h.2.symm⟩

set_option linter.unnecessarySeqFocus false in
theorem runVerify_counter (q : ℕ) (g : ZMod q) :
    ∀ (calls : List (Msg × RingSignature q × String)) (st : ContractState q)
      (bs : List Bool) (st' : ContractState q),
      runVerify q g calls st = .ok (bs, st') →
      bs.length = calls.length ∧
      st'.counter = st.counter + bs.count true := by
  intro calls
  induction calls with
  | nil =>
    intro st bs st' h
    simp only [runVerify, Except.ok.injEq, Prod.mk.injEq] at h
    obtain ⟨h1, h2⟩ := h
    subst h1
    subst h2
    simp
  | cons c cs ih =>
    intro st bs st' h
    unfold runVerify at h
    split at h
    · exact absurd h (by simp)
    · next b st1 hv =>
      split at h
      · exact absurd h (by simp)
      · next bs2 st2 hr =>
        simp only [Except.ok.injEq, Prod.mk.injEq] at h
        obtain ⟨h1, h2⟩ := h
        subst h1
        subst h2
        obtain ⟨hl, hc⟩ := ih st1 bs2 st2 hr
        rcases verifyAttribute_ok_cases q g c.1 c.2.1 c.2.2 st b st1 hv with
          ⟨hb, h1⟩ | ⟨hb, h1⟩ <;> subst hb <;> subst h1 <;>
          simp [hl, hc, List.count_cons] <;> omega

/-- C3: The VerificationCounter is monotonic and tied one-to-one to
successful verifications: each accepting verify_attribute call increments it
by exactly one, a failing call leaves the state unchanged, the counter
never decrements, and a run of N successful verifications starting from
value v ends at exactly v + N. -/
theorem claim_C3 (q : ℕ) (g : ZMod q) :
    (∀ (m : Msg) (sig : RingSignature q) (attr : String)
      (st st' : ContractState q),
      verifyAttribute q g m sig attr st = .ok (true, st') →
      st'.counter = st.counter + 1) ∧
    (∀ (m : Msg) (sig : RingSignature q) (attr : String)
      (st st' : ContractState q),
      verifyAttribute q g m sig attr st = .ok (false, st') → st' = st) ∧
    (∀ (m : Msg) (sig : RingSignature q) (attr : String) (b : Bool)
      (st st' : ContractState q),
      verifyAttribute q g m sig attr st = .ok (b, st') →
      st.counter ≤ st'.counter) ∧
    (∀ (calls : List (Msg × RingSignature q × String))
      (st : ContractState q) (bs : List Bool) (st' : ContractState q),
      runVerify q g calls st = .ok (bs, st') →
      st'.counter = st.counter + bs.count true) ∧
    (∀ (calls : List (Msg × RingSignature q × String))
      (st : ContractState q) (bs : List Bool) (st' : ContractState q),
      runVerify q g calls st = .ok (bs, st') → (∀ b ∈ bs, b = true) →
      st'.counter = st.counter + calls.length) := by
  refine ⟨?_, ?_, ?_, ?_, ?_⟩
  · intro m sig attr st st' h
    rcases verifyAttribute_ok_cases q g m sig attr st true st' h with
      ⟨-, h1⟩ | ⟨hb, -⟩
    · rw [h1]
    · exact absurd hb (by simp)
  · intro m sig attr st st' h
    rcases verifyAttribute_ok_cases q g m sig attr st false st' h with
      ⟨hb, -⟩ | ⟨-, h1⟩
    · exact absurd hb (by simp)
    · exact h1
  · intro m sig attr b st st' h
    rcases verifyAttribute_ok_cases q g m sig attr st b st' h with
      ⟨-, h1⟩ | ⟨-, h1⟩ <;> subst h1 <;> simp
  · intro calls st bs st' h
    exact (runVerify_counter q g calls st bs st' h).2
  · intro calls st bs st' h hall
    obtain ⟨hl, hc⟩ := runVerify_counter q g calls st bs st' h
    have : bs.count true = bs.length := List.count_eq_length.mpr
      (fun b hb => by rw [hall b hb])
    rw [hc, this, hl]

theorem claim_C3_witness :
    (⟨some 1, [42], [("over_18", [15, 7])], 2⟩ : ContractState 97).counter =
      (⟨some 1, [42], [("over_18", [15, 7])], 0⟩ : ContractState 97).counter +
        2 :=
  (claim_C3 97 3).2.2.2.2
    [([1, 2], sign 97 3 [1, 2] [15, 7] 0 5 11 [0, 4], "over_18"),
     ([1, 2], sign 97 3 [1, 2] [15, 7] 0 5 11 [0, 4], "over_18")]
    ⟨some 1, [42], [("over_18", [15, 7])], 0⟩ [true, true]
    ⟨some 1, [42], [("over_18", [15, 7])], 2⟩ (by decide) (by decide)

theorem not_nodup_two_le {α : Type} (l : List α) (h : ¬ l.Nodup) :
    2 ≤ l.length := by
  match l with
  | [] => exact absurd List.nodup_nil h
  | [a] => exact absurd (List.nodup_singleton a) h
  | a :: b :: t => simp only [List.length_cons]; omega

/-- C4: create_ring_for_attribute fails unless the caller is an
authenticated registered issuer, fails with InvalidRingSize whenever
members has fewer than 2 entries, fails with DuplicateMember whenever two
entries are bit-identical, and only otherwise stores the ring. -/
theorem claim_C4 (q : ℕ) (issuer : ℕ) (authed : Bool) (attr : String)
    (members : List (ZMod q)) (st : ContractState q) :
    ((authed = false ∨ issuer ∉ st.issuers) →
      ∃ e, createRingForAttribute q issuer authed attr members st =
        .error e) ∧
    (members.length < 2 →
      createRingForAttribute q issuer authed attr members st =
        .error .InvalidRingSize) ∧
    (¬ members.Nodup →
      createRingForAttribute q issuer authed attr members st =
        .error .DuplicateMember) ∧
    (authed = true → issuer ∈ st.issuers → 2 ≤ members.length →
      members.Nodup →
      ∃ st', createRingForAttribute q issuer authed attr members st =
          .ok st' ∧
        getRingForAttribute q attr st' = some members) ∧
    (∀ st', createRingForAttribute q issuer authed attr members st =
        .ok st' →
      authed = true ∧ issuer ∈ st.issuers ∧ 2 ≤ members.length ∧
        members.Nodup) := by
  refine ⟨?_, ?_, ?_, ?_, ?_⟩
  · intro h
    unfold createRingForAttribute
    by_cases h1 : members.length < 2
    · exact ⟨.InvalidRingSize, by rw [if_pos h1]⟩
    · by_cases h2 : members.Nodup
      · refine ⟨.Unauthorized, ?_⟩
        rw [if_neg h1, if_neg (by simp [h2]), if_neg ?_]
        rcases h with h | h
        · intro hc
          rw [h] at hc
          exact Bool.false_ne_true hc.1
        · intro hc
          exact h hc.2
      · exact ⟨.DuplicateMember, by rw [if_neg h1, if_pos (by simp [h2])]⟩
  · intro h
    unfold createRingForAttribute
    rw [if_pos h]
  · intro h
    unfold createRingForAttribute
    rw [if_neg (by have := not_nodup_two_le members h; omega),
      if_pos (by simp [h])]
  · intro h1 h2 h3 h4
    refine ⟨{ st with rings := (attr, members) :: st.rings }, ?_, ?_⟩
    · unfold createRingForAttribute
      rw [if_neg (by omega), if_neg (by simp [h4]), if_pos ⟨h1, h2⟩]
    · simp [getRingForAttribute, List.lookup]
  · intro st' h
    unfold createRingForAttribute at h
    by_cases h1 : members.length < 2
    · rw [if_pos h1] at h
      exact absurd h (by simp)
    · rw [if_neg h1] at h
      by_cases h2 : members.Nodup
      · rw [if_neg (by simp [h2])] at h
        by_cases h3 : authed = true ∧ issuer ∈ st.issuers
        · exact ⟨h3.1, h3.2, by omega, h2⟩
        · rw [if_neg h3] at h
          exact absurd h (by simp)
      · rw [if_pos (by simp [h2])] at h
        exact absurd h (by simp)

theorem claim_C4_witness :
    (∃ e, createRingForAttribute 97 9 true "over_18" [3, 6]
      ⟨some 1, [], [], 0⟩ = .error e) ∧
    createRingForAttribute 97 9 true "over_18" [3]
      ⟨some 1, [9], [], 0⟩ = .error .InvalidRingSize ∧
    createRingForAttribute 97 9 true "over_18" [3, 3]
      ⟨some 1, [9], [], 0⟩ = .error .DuplicateMember ∧
    ∃ st', createRingForAttribute 97 9 true "over_18" [3, 6]
        ⟨some 1, [9], [], 0⟩ = .ok st' ∧
      getRingForAttribute 97 "over_18" st' = some [3, 6] :=
  ⟨(claim_C4 97 9 true "over_18" [3, 6] ⟨some 1, [], [], 0⟩).1
      (Or.inr (by decide)),
   (claim_C4 97 9 true "over_18" [3] ⟨some 1, [9], [], 0⟩).2.1 (by decide),
   (claim_C4 97 9 true "over_18" [3, 3] ⟨some 1, [9], [], 0⟩).2.2.1
      (by decide),
   (claim_C4 97 9 true "over_18" [3, 6] ⟨some 1, [9], [], 0⟩).2.2.2.1
      rfl (by decide) (by decide) (by decide)⟩

theorem runRegister_issuers (q : ℕ) (caller : ℕ) :
    ∀ (pubs : List ℕ) (st st' : ContractState q),
      runRegister q caller pubs st = .ok st' →
      st'.issuers = st.issuers ++ pubs := by
  intro pubs
  induction pubs with
  | nil =>
    intro st st' h
    simp only [runRegister, Except.ok.injEq] at h
    subst h
    simp
  | cons p ps ih =>
    intro st st' h
    unfold runRegister at h
    split at h
    · exact absurd h (by simp)
    · next st1 hr =>
      have h1 : st1.issuers = st.issuers ++ [p] := by
        unfold registerIssuer at hr
        split at hr
        · split at hr
          · exact absurd hr (by simp)
          · injection hr with h2
            rw [← h2]
        · exact absurd hr (by simp)
      rw [ih st1 st' h, h1, List.append_assoc, List.singleton_append]

/-- C5: register_issuer fails with Unauthorized unless the caller equals the
admin set at initialization, fails with DuplicateIssuer if the key is
already present, and otherwise appends the key so that list_issuers returns
issuers in registration order. -/
theorem claim_C5 (q : ℕ) (pub caller : ℕ) (st : ContractState q) :
    (st.admin ≠ some caller →
      registerIssuer q pub caller st = .error .Unauthorized) ∧
    (st.admin = some caller → pub ∈ st.issuers →
      registerIssuer q pub caller st = .error .DuplicateIssuer) ∧
    (st.admin = some caller → pub ∉ st.issuers →
      registerIssuer q pub caller st =
        .ok { st with issuers := st.issuers ++ [pub] }) ∧
    (∀ (pubs : List ℕ) (st' : ContractState q),
      runRegister q caller pubs st = .ok st' →
      listIssuers q st' = listIssuers q st ++ pubs) := by
  refine ⟨?_, ?_, ?_, ?_⟩
  · intro h
    unfold registerIssuer
    rw [if_neg h]
  · intro h1 h2
    unfold registerIssuer
    rw [if_pos h1, if_pos h2]
  · intro h1 h2
    unfold registerIssuer
    rw [if_pos h1, if_neg h2]
  · intro pubs st' h
    exact runRegister_issuers q caller pubs st st' h

theorem claim_C5_witness :
    registerIssuer 97 7 2 ⟨some 1, [], [], 0⟩ = .error .Unauthorized ∧
    registerIssuer 97 7 1 ⟨some 1, [7], [], 0⟩ = .error .DuplicateIssuer ∧
    registerIssuer 97 7 1 ⟨some 1, [5], [], 0⟩ =
      .ok ⟨some 1, [5, 7], [], 0⟩ ∧
    listIssuers 97 (⟨some 1, [5, 7, 8], [], 0⟩ : ContractState 97) =
      listIssuers 97 (⟨some 1, [], [], 0⟩ : ContractState 97) ++ [5, 7, 8] :=
  ⟨(claim_C5 97 7 2 ⟨some 1, [], [], 0⟩).1 (by decide),
   (claim_C5 97 7 1 ⟨some 1, [7], [], 0⟩).2.1 rfl (by decide),
   (claim_C5 97 7 1 ⟨some 1, [5], [], 0⟩).2.2.1 rfl (by decide),
   (claim_C5 97 5 1 ⟨some 1, [], [], 0⟩).2.2.2 [5, 7, 8]
     ⟨some 1, [5, 7, 8], [], 0⟩ (by decide)⟩

/-- C6: A valid ring signature does not transfer across anonymity set or
message: a signature accepted for the stored ring of one attribute is
rejected against any attribute whose stored ring differs (even a superset),
and rejected for any message different from the signed one. -/
theorem claim_C6 (q : ℕ) [NeZero q] (g : ZMod q) (m : Msg)
    (sig : RingSignature q) (attr1 attr2 : String) (st st' : ContractState q)
    (R1 R2 : List (ZMod q))
    (hr1 : getRingForAttribute q attr1 st = some R1)
    (hr2 : getRingForAttribute q attr2 st = some R2)
    (hR1 : 2 ≤ R1.length) (hR2 : 2 ≤ R2.length)
    (hacc : verifyAttribute q g m sig attr1 st = .ok (true, st')) :
    (R2 ≠ R1 → verifyAttribute q g m sig attr2 st = .ok (false, st)) ∧
    (∀ m2, m2 ≠ m → verifyAttribute q g m2 sig attr1 st = .ok (false, st)) := by
  have hv1 : verifySig q g m R1 sig = true := by
    unfold verifyAttribute at hacc
    split at hacc
    · exact absurd hacc (by simp)
    · next ring hr =>
      rw [hr1] at hr
      injection hr with hr'
      subst hr'
      split at hacc
      · next hv => exact hv
      · exact absurd hacc (by simp)
  have hne1 : R1 ≠ [] := by
    intro h
    rw [h] at hR1
    simp at hR1
  have hne2 : R2 ≠ [] := by
    intro h
    rw [h] at hR2
    simp at hR2
  constructor
  · intro hne
    rcases Bool.eq_false_or_eq_true (verifySig q g m R2 sig) with hv2 | hv2
    · obtain ⟨hr, -⟩ := verifySig_binds q g m m R1 R2 sig hne1 hne2 hv1 hv2
      exact absurd hr.symm hne
    · simp only [verifyAttribute, hr2, hv2, Bool.false_eq_true, if_false]
  · intro m2 hm2
    rcases Bool.eq_false_or_eq_true (verifySig q g m2 R1 sig) with hv2 | hv2
    · obtain ⟨-, hm⟩ := verifySig_binds q g m m2 R1 R1 sig hne1 hne1 hv1 hv2
      exact absurd hm.symm hm2
    · simp only [verifyAttribute, hr1, hv2, Bool.false_eq_true, if_false]

theorem claim_C6_witness :
    verifyAttribute 97 3 [1, 2] (sign 97 3 [1, 2] [15, 7] 0 5 11 [0, 4])
      "over_21"
      ⟨some 1, [], [("over_18", [15, 7]), ("over_21", [15, 7, 21])], 0⟩ =
      .ok (false,
        ⟨some 1, [], [("over_18", [15, 7]), ("over_21", [15, 7, 21])], 0⟩) ∧
    verifyAttribute 97 3 [1, 3] (sign 97 3 [1, 2] [15, 7] 0 5 11 [0, 4])
      "over_18"
      ⟨some 1, [], [("over_18", [15, 7]), ("over_21", [15, 7, 21])], 0⟩ =
      .ok (false,
        ⟨some 1, [], [("over_18", [15, 7]), ("over_21", [15, 7, 21])], 0⟩) :=
  ⟨(claim_C6 97 3 [1, 2] (sign 97 3 [1, 2] [15, 7] 0 5 11 [0, 4])
      "over_18" "over_21"
      ⟨some 1, [], [("over_18", [15, 7]), ("over_21", [15, 7, 21])], 0⟩
      ⟨some 1, [], [("over_18", [15, 7]), ("over_21", [15, 7, 21])], 1⟩
      [15, 7] [15, 7, 21] (by decide) (by decide) (by decide) (by decide)
      (by decide)).1 (by decide),
   (claim_C6 97 3 [1, 2] (sign 97 3 [1, 2] [15, 7] 0 5 11 [0, 4])
      "over_18" "over_21"
      ⟨some 1, [], [("over_18", [15, 7]), ("over_21", [15, 7, 21])], 0⟩
      ⟨some 1, [], [("over_18", [15, 7]), ("over_21", [15, 7, 21])], 1⟩
      [15, 7] [15, 7, 21] (by decide) (by decide) (by decide) (by decide)
      (by decide)).2 [1, 3] (by decide)⟩

/-- C7: generate_keys(count) fails with InvalidParameter exactly when count
is zero, and for count >= 1 returns parallel sequences of length count
where each public point is the secret scalar times the generator. -/
theorem claim_C7 (q : ℕ) (g : ZMod q) (count : ℕ) (rand : ℕ → ZMod q) :
    (count = 0 →
      createKeysOp q g count rand = .error .InvalidParameter) ∧
    (∀ e, createKeysOp q g count rand = .error e →
      count = 0 ∧ e = .InvalidParameter) ∧
    (0 < count → ∃ sks, createKeysOp q g count rand =
        .ok (sks, sks.map (fun s => s * g)) ∧ sks.length = count) := by
  refine ⟨?_, ?_, ?_⟩
  · intro h
    unfold createKeysOp
    rw [if_pos h]
  · intro e h
    unfold createKeysOp at h
    by_cases h0 : count = 0
    · rw [if_pos h0] at h
      injection h with h1
      exact ⟨h0, h1.symm⟩
    · rw [if_neg h0] at h
      exact absurd h (by simp)
  · intro h
    refine ⟨(List.range count).map rand, ?_, by simp⟩
    unfold createKeysOp
    rw [if_neg (by omega)]
    congr 1
    simp [List.map_map, Function.comp]

theorem claim_C7_witness :
    createKeysOp 97 3 0 (fun n => (n : ZMod 97)) =
      .error .InvalidParameter ∧
    ∃ sks, createKeysOp 97 3 2 (fun n => (n : ZMod 97)) =
        .ok (sks, sks.map (fun s => s * 3)) ∧ sks.length = 2 :=
  ⟨(claim_C7 97 3 0 (fun n => (n : ZMod 97))).1 rfl,
   (claim_C7 97 3 2 (fun n => (n : ZMod 97))).2.2 (by decide)⟩

/-- The consistency invariant of the approval loop: every attribute holding
a user key holds a 5-member ring whose first member is that key's public
point. -/
def approveInv (q : ℕ) (g : ZMod q) (s : ApproveState q) : Prop :=
  ∀ a sk, s.userKeys a = some sk →
    ∃ ring, s.attrRings a = some ring ∧ ring.length = 5 ∧
      ring.head? = some (sk * g)

theorem approveStep_userKeys (q : ℕ) (g : ZMod q) (rand : ℕ → ZMod q)
    (s : ApproveState q) (attr a : String) :
    (approveStep q g rand s attr).userKeys a =
      if a = attr then some (rand s.cursor) else s.userKeys a := rfl

theorem approveStep_attrRings (q : ℕ) (g : ZMod q) (rand : ℕ → ZMod q)
    (s : ApproveState q) (attr a : String) :
    (approveStep q g rand s attr).attrRings a =
      if a = attr then
        some (rand s.cursor * g ::
          (List.range 4).map (fun i => rand (s.cursor + 1 + i) * g))
      else s.attrRings a := rfl

theorem approveStep_inv (q : ℕ) (g : ZMod q) (rand : ℕ → ZMod q)
    (s : ApproveState q) (attr : String) (h : approveInv q g s) :
    approveInv q g (approveStep q g rand s attr) := by
  intro a sk hsk
  rw [approveStep_userKeys] at hsk
  by_cases ha : a = attr
  · rw [if_pos ha] at hsk
    injection hsk with hsk'
    refine ⟨rand s.cursor * g ::
      (List.range 4).map (fun i => rand (s.cursor + 1 + i) * g), ?_, ?_, ?_⟩
    · rw [approveStep_attrRings, if_pos ha]
    · simp
    · rw [← hsk']
      rfl
  · rw [if_neg ha] at hsk
    obtain ⟨ring, hr, hl, hh⟩ := h a sk hsk
    refine ⟨ring, ?_, hl, hh⟩
    rw [approveStep_attrRings, if_neg ha]
    exact hr

theorem approveLoop_inv (q : ℕ) (g : ZMod q) (rand : ℕ → ZMod q) :
    ∀ (attrs : List String) (s : ApproveState q), approveInv q g s →
      approveInv q g (attrs.foldl (approveStep q g rand) s) := by
  intro attrs
  induction attrs with
  | nil => intro s h; exact h
  | cons b t ih =>
    intro s h
    exact ih (approveStep q g rand s b) (approveStep_inv q g rand s b h)

theorem approveLoop_isSome (q : ℕ) (g : ZMod q) (rand : ℕ → ZMod q) :
    ∀ (attrs : List String) (s : ApproveState q) (a : String),
      (s.userKeys a).isSome →
      ((attrs.foldl (approveStep q g rand) s).userKeys a).isSome := by
  intro attrs
  induction attrs with
  | nil => intro s a h; exact h
  | cons b t ih =>
    intro s a h
    refine ih (approveStep q g rand s b) a ?_
    rw [approveStep_userKeys]
    by_cases ha : a = b <;> simp [ha, h]

theorem approveLoop_mem (q : ℕ) (g : ZMod q) (rand : ℕ → ZMod q) :
    ∀ (attrs : List String) (s : ApproveState q) (a : String), a ∈ attrs →
      ((attrs.foldl (approveStep q g rand) s).userKeys a).isSome := by
  intro attrs
  induction attrs with
  | nil =>
    intro s a h
    exact absurd h (List.not_mem_nil a)
  | cons b t ih =>
    intro s a h
    rcases List.mem_cons.mp h with rfl | ht
    · simp only [List.foldl_cons]
      refine approveLoop_isSome q g rand t (approveStep q g rand s a) a ?_
      rw [approveStep_userKeys]
      simp
    · exact ih (approveStep q g rand s b) a ht

/-- C8: In the surrounding workflows the holder's position in the ring is
fixed, not hidden: every ring registered by the issuer approval flow has
exactly 5 members — the freshly generated holder public key at index 0
followed by 4 decoy keys — and the proof flow always calls sign with
signer_index 0. -/
theorem claim_C8 (q : ℕ) (g : ZMod q) (rand : ℕ → ZMod q)
    (attrs : List String) (attr : String) (h : attr ∈ attrs) :
    ∃ sk ring,
      (handleApprove q g rand attrs).userKeys attr = some sk ∧
      (handleApprove q g rand attrs).attrRings attr = some ring ∧
      ring.length = 5 ∧
      ring.head? = some (sk * g) ∧
      ∀ (challenge : Msg) (a : ZMod q) (rs : List (ZMod q)),
        handleSign q g (handleApprove q g rand attrs).userKeys
          (handleApprove q g rand attrs).attrRings attr challenge a rs =
          some (sign q g challenge ring 0 sk a rs) := by
  have hsome : (((handleApprove q g rand attrs)).userKeys attr).isSome := by
    unfold handleApprove
    exact approveLoop_mem q g rand attrs ⟨0, fun _ => none, fun _ => none⟩
      attr h
  obtain ⟨sk, hsk⟩ := Option.isSome_iff_exists.mp hsome
  have hinv : approveInv q g (handleApprove q g rand attrs) := by
    unfold handleApprove
    refine approveLoop_inv q g rand attrs ⟨0, fun _ => none, fun _ => none⟩ ?_
    intro a sk' h'
    exact absurd h' (by simp)
  obtain ⟨ring, hring, hlen, hhead⟩ := hinv attr sk hsk
  refine ⟨sk, ring, hsk, hring, hlen, hhead, ?_⟩
  intro challenge a rs
  simp only [handleSign, hring, hsk]

theorem claim_C8_witness :
    ∃ sk ring,
      (handleApprove 97 3 (fun n => (n : ZMod 97))
        ["over_18"]).userKeys "over_18" = some sk ∧
      (handleApprove 97 3 (fun n => (n : ZMod 97))
        ["over_18"]).attrRings "over_18" = some ring ∧
      ring.length = 5 ∧
      ring.head? = some (sk * 3) ∧
      ∀ (challenge : Msg) (a : ZMod 97) (rs : List (ZMod 97)),
        handleSign 97 3
          (handleApprove 97 3 (fun n => (n : ZMod 97)) ["over_18"]).userKeys
          (handleApprove 97 3 (fun n => (n : ZMod 97)) ["over_18"]).attrRings
          "over_18" challenge a rs =
          some (sign 97 3 challenge ring 0 sk a rs) :=
  claim_C8 97 3 (fun n => (n : ZMod 97)) ["over_18"] "over_18" (by decide)

end SDKYC
